import Mathlib

/-!
Verification of `tidecv/helpers.py`: the record importer (`json_to_Data`),
the subset filter (`create_filtered_Data`), the consistency enlarger
(`enlarge_dataset_to_respect_TIDE`) and the class filter
(`filter_dataset_to_label`).

Python dictionaries holding annotations are embedded as structures; a field
whose key may be absent from the dictionary is an `Option`, with `none`
standing for key-absent.  Reading an absent required key (Python `KeyError`)
is embedded as `Except.error`.  Python `set`s of ids are `Finset ℕ`,
insertion-ordered `dict`s are association lists.
-/

set_option maxRecDepth 10000

namespace Tide

instance {ε α : Type} [DecidableEq ε] [DecidableEq α] : DecidableEq (Except ε α) := fun a b =>
  match a, b with
  | .error e, .error e' => decidable_of_iff (e = e') (by simp)
  | .ok x, .ok y => decidable_of_iff (x = y) (by simp)
  | .error _, .ok _ => isFalse (by simp)
  | .ok _, .error _ => isFalse (by simp)

/-- The `info` dictionary the analysis engine attaches to prediction
annotations; only its `matched_with` key is ever read by this code.
`matched_with = none` models the key being absent from `info`. -/
structure Info where
  matched_with : Option Nat
deriving DecidableEq

/-- An annotation dictionary as it appears inside a `Data` instance
(after import): all fields the importer installs are present.
`info = none` models an annotation dictionary with no `info` key. -/
structure Ann where
  _id : Nat
  image_id : String
  «class» : Int
  bbox : List Int
  mask : Option Unit
  ignore : Bool
  score : Option ℚ
  info : Option Info
deriving DecidableEq

/-- The per-image record stored in `Data.images`: a `name` and the list
`anns` of `_id`s of the annotations belonging to that image. -/
structure ImageRec where
  name : String
  anns : List Nat
deriving DecidableEq

/-- The TIDE `Data` container: a name, the ordered annotation list, the
class-id → label mapping and the image-id → record mapping (both
insertion-ordered dictionaries, embedded as association lists). -/
structure Data (α : Type) where
  name : String
  annotations : List α
  classes : List (Int × String)
  images : List (String × ImageRec)
deriving DecidableEq

/-- `defaultdict(list)` update: append `v` to the list stored under `k`,
creating the entry at the end if `k` is not yet a key. -/
def addPair (acc : List (String × List Nat)) (k : String) (v : Nat) :
    List (String × List Nat) :=
  match acc with
  | [] => [(k, [v])]
  | (k', l) :: rest =>
      if k' = k then (k', l ++ [v]) :: rest else (k', l) :: addPair rest k v

/-- Build the `image_id → list of _id` grouping by iterating over
`(image_id, _id)` pairs, exactly as the Python loops populate their
`defaultdict(list)`. -/
def groupPairs (ps : List (String × Nat)) : List (String × List Nat) :=
  ps.foldl (fun acc p => addPair acc p.1 p.2) []

/-- Insert a value into an ascending list, keeping it ascending. -/
def insertSortedInt (x : Int) : List Int → List Int
  | [] => [x]
  | y :: ys => if x ≤ y then x :: y :: ys else y :: insertSortedInt x ys

/-- `sorted({...})`: the distinct values of a list, in ascending order
(insertion sort over the deduplicated values). -/
def sortedClassKeys (cs : List Int) : List Int :=
  cs.dedup.foldr insertSortedInt []

/-- `for i in sorted({...}): classes[i] = f"Class {i}"`: the classes
dictionary built from a list of class values. -/
def canonicalClasses (cs : List Int) : List (Int × String) :=
  (sortedClassKeys cs).map (fun i => (i, s!"Class {i}"))

/-- The images dictionary built from `(image_id, _id)` pairs:
group, then attach `name = f"Image {i}"` to every image. -/
def canonicalImages (ps : List (String × Nat)) : List (String × ImageRec) :=
  (groupPairs ps).map (fun q => (q.1, { name := s!"Image {q.1}", anns := q.2 }))

/-- The body of `create_filtered_Data`'s main loop: walk the kept
annotations with a counter `i`, emitting for each one a copy with `_id`
overwritten to `i` together with the `new_id_to_old_id` entry
`(i, old _id)`. -/
def reindex (anns : List Ann) (i : Nat) : List Ann × List (Nat × Nat) :=
  match anns with
  | [] => ([], [])
  | a :: rest =>
      let res := reindex rest (i + 1)
      ({ a with _id := i } :: res.1, (i, a._id) :: res.2)

/-- `create_filtered_Data(data, ids_keep, data_name)`: keep the annotations
whose `_id` lies in `ids_keep`, renumber them densely from 0 while
recording `new_id_to_old_id`, and rebuild `classes` and `images` from the
retained annotations. -/
def create_filtered_Data (data : Data Ann) (ids_keep : Finset Nat)
    (data_name : String) : Data Ann × List (Nat × Nat) :=
  let kept := data.annotations.filter (fun a => a._id ∈ ids_keep)
  let res := reindex kept 0
  ({ name := data_name
     annotations := res.1
     classes := canonicalClasses (res.1.map (fun a => a.«class»))
     images := canonicalImages (res.1.map (fun a => (a.image_id, a._id))) },
   res.2)

/-- The set comprehension for `assoc_gts`:
`{pred['info']['matched_with'] for pred in preds.annotations
  if "matched_with" in pred['info'] and pred["_id"] in preds_keep}`.
Accessing `pred['info']` on an annotation without an `info` key raises
`KeyError`, which happens for every annotation visited, kept or not. -/
def assocGtsE (anns : List Ann) (preds_keep : Finset Nat) :
    Except String (Finset Nat) :=
  match anns with
  | [] => .ok ∅
  | a :: rest =>
      match a.info with
      | none => .error "KeyError: info"
      | some i =>
          match assocGtsE rest preds_keep with
          | .error e => .error e
          | .ok s =>
              match i.matched_with with
              | some g => if a._id ∈ preds_keep then .ok (insert g s) else .ok s
              | none => .ok s

/-- The set comprehension for `assoc_preds`:
`{pred['_id'] for pred in preds.annotations
  if pred['info'].get("matched_with") in filetered_gts}`. -/
def assocPredsE (anns : List Ann) (filetered_gts : Finset Nat) :
    Except String (Finset Nat) :=
  match anns with
  | [] => .ok ∅
  | a :: rest =>
      match a.info with
      | none => .error "KeyError: info"
      | some i =>
          match assocPredsE rest filetered_gts with
          | .error e => .error e
          | .ok s =>
              match i.matched_with with
              | some g => if g ∈ filetered_gts then .ok (insert a._id s) else .ok s
              | none => .ok s

/-- `enlarge_dataset_to_respect_TIDE(gts, preds, gts_keep, preds_keep)`:
compute `assoc_gts` from the kept predictions, union with `gts_keep`,
collect every prediction matched into that enlarged ground-truth set,
union with `preds_keep`, then filter both datasets. -/
def enlarge_dataset_to_respect_TIDE (gts preds : Data Ann)
    (gts_keep preds_keep : Finset Nat) :
    Except String (Data Ann × Data Ann × List (Nat × Nat) × List (Nat × Nat)) :=
  match assocGtsE preds.annotations preds_keep with
  | .error e => .error e
  | .ok assoc_gts =>
      let filetered_gts := gts_keep ∪ assoc_gts
      match assocPredsE preds.annotations filetered_gts with
      | .error e => .error e
      | .ok assoc_preds =>
          let filetered_preds := assoc_preds ∪ preds_keep
          let g := create_filtered_Data gts filetered_gts "filtered_data"
          let p := create_filtered_Data preds filetered_preds "filtered_data"
          .ok (g.1, p.1, g.2, p.2)

/-- A flat record dictionary as parsed from the JSON file, and — because
`json_to_Data` mutates these same dictionaries in place and installs them
as annotations — also the annotation dictionary type of the two datasets
the importer returns.  Fields the importer may find absent are `Option`
(`none` = key absent); `is_gold`, `is_pred`, `image_id` and `bbox_xywh`
are required of every record (spec §6). -/
structure RecDict where
  is_gold : Bool
  is_pred : Bool
  gold : Option Int
  pred : Option Int
  image_id : String
  bbox_xywh : List Int
  confidence : Option ℚ
  info : Option Info
  _id : Option Nat
  «class» : Option Int
  bbox : Option (List Int)
  mask : Option Unit
  ignore : Option Bool
  score : Option ℚ
deriving DecidableEq

/-- The body of the ground-truth import loop, as a pure record update:
`ann["_id"] = i; ann["mask"] = None; ann["ignore"] = False;
ann["class"] = ann["gold"]; ann["bbox"] = ann["bbox_xywh"]`. -/
def gtUpdateP (r : RecDict) (i : Nat) : RecDict :=
  { r with _id := some i, mask := none, ignore := some false,
           «class» := r.gold, bbox := some r.bbox_xywh }

/-- The ground-truth import loop body with the `KeyError` raised by
`ann["gold"]` when the record has no `gold` key. -/
def gtUpdate (r : RecDict) (i : Nat) : Except String RecDict :=
  match r.gold with
  | none => .error "KeyError: gold"
  | some _ => .ok (gtUpdateP r i)

/-- The body of the prediction import loop, as a pure record update:
`pred["_id"] = i; pred["mask"] = None; pred["ignore"] = False;
pred["class"] = pred["pred"]; pred["score"] = pred["confidence"];
pred["bbox"] = pred["bbox_xywh"]`. -/
def predUpdateP (r : RecDict) (i : Nat) : RecDict :=
  { r with _id := some i, mask := none, ignore := some false,
           «class» := r.pred, score := r.confidence, bbox := some r.bbox_xywh }

/-- The prediction import loop body with the `KeyError`s raised by
`pred["pred"]` and `pred["confidence"]` when absent. -/
def predUpdate (r : RecDict) (i : Nat) : Except String RecDict :=
  match r.pred with
  | none => .error "KeyError: pred"
  | some _ =>
      match r.confidence with
      | none => .error "KeyError: confidence"
      | some _ => .ok (predUpdateP r i)

/-- In-place mutation of every record of the store satisfying tag `p`,
numbering the mutated records `n, n+1, …` in encounter order — the shape
of `for i, ann in enumerate([ann for ann in data if ann[tag]]): …` where
each `ann` is a reference into the store. -/
def mutateTaggedE (p : RecDict → Bool) (f : RecDict → Nat → Except String RecDict) :
    List RecDict → Nat → Except String (List RecDict)
  | [], _ => .ok []
  | r :: rs, n =>
      if p r then
        match f r n with
        | .error e => .error e
        | .ok r' =>
            match mutateTaggedE p f rs (n + 1) with
            | .error e => .error e
            | .ok rest => .ok (r' :: rest)
      else
        match mutateTaggedE p f rs n with
        | .error e => .error e
        | .ok rest => .ok (r :: rest)

/-- Pure rendering of `mutateTaggedE` (no missing required field). -/
def mutateTagged (p : RecDict → Bool) (f : RecDict → Nat → RecDict) :
    List RecDict → Nat → List RecDict
  | [], _ => []
  | r :: rs, n =>
      if p r then f r n :: mutateTagged p f rs (n + 1)
      else r :: mutateTagged p f rs n

/-- Apply the loop body `f` to every element of an already-filtered list,
numbering from `n` — the image of the tagged records under the import
loop. -/
def applyEnum (f : RecDict → Nat → RecDict) : List RecDict → Nat → List RecDict
  | [], _ => []
  | r :: rs, n => f r n :: applyEnum f rs (n + 1)

/-- The `(image_id, assigned _id)` pairs appended to the per-image
`defaultdict(list)` while the import loop walks its records, the counter
starting at `n`. -/
def imagePairs : List RecDict → Nat → List (String × Nat)
  | [], _ => []
  | r :: rs, n => (r.image_id, n) :: imagePairs rs (n + 1)

/-- `json_to_Data` after `json.load`: partition the parsed records by
`is_gold` / `is_pred`, mutate each partition's records in place (the gold
pass first, then the prediction pass over the same store, so a record
carrying both tags is rewritten twice), and assemble the two `Data`
instances.  The ground-truth `classes`/`images` are computed between the
two passes, while its `annotations` are the shared dictionaries as they
stand after both passes. -/
def json_to_Data (data : List RecDict) :
    Except String (Data RecDict × Data RecDict) :=
  match mutateTaggedE (fun r => r.is_gold) gtUpdate data 0 with
  | .error e => .error e
  | .ok store1 =>
      let gt_annotations := store1.filter (fun r => r.is_gold)
      let gtClasses := canonicalClasses (gt_annotations.filterMap (fun r => r.«class»))
      let gtImages := canonicalImages (imagePairs gt_annotations 0)
      match mutateTaggedE (fun r => r.is_pred) predUpdate store1 0 with
      | .error e => .error e
      | .ok store2 =>
          let pred_annotations := store2.filter (fun r => r.is_pred)
          let predClasses := canonicalClasses (pred_annotations.filterMap (fun r => r.«class»))
          let predImages := canonicalImages (imagePairs pred_annotations 0)
          .ok ({ name := "test_gt"
                 annotations := store2.filter (fun r => r.is_gold)
                 classes := gtClasses
                 images := gtImages },
               { name := "test_pred"
                 annotations := pred_annotations
                 classes := predClasses
                 images := predImages })

/-- The record store after the ground-truth import pass (pure rendering,
meaningful when every gold-tagged record has its `gold` field). -/
def store1P (data : List RecDict) : List RecDict :=
  mutateTagged (fun r => r.is_gold) gtUpdateP data 0

/-- The record store after both import passes. -/
def store2P (data : List RecDict) : List RecDict :=
  mutateTagged (fun r => r.is_pred) predUpdateP (store1P data) 0

/-- The ground-truth dataset `json_to_Data` assembles: annotations are the
gold-tagged store dictionaries as they stand after both passes, while
`classes`/`images` were computed from their values between the passes. -/
def gtsOut (data : List RecDict) : Data RecDict :=
  { name := "test_gt"
    annotations := (store2P data).filter (fun r => r.is_gold)
    classes := canonicalClasses
      (((store1P data).filter (fun r => r.is_gold)).filterMap (fun r => r.«class»))
    images := canonicalImages
      (imagePairs ((store1P data).filter (fun r => r.is_gold)) 0) }

/-- The prediction dataset `json_to_Data` assembles. -/
def predsOut (data : List RecDict) : Data RecDict :=
  { name := "test_pred"
    annotations := (store2P data).filter (fun r => r.is_pred)
    classes := canonicalClasses
      (((store2P data).filter (fun r => r.is_pred)).filterMap (fun r => r.«class»))
    images := canonicalImages
      (imagePairs ((store2P data).filter (fun r => r.is_pred)) 0) }

/-- `filter_dataset_to_label(gts, preds, cls_id)`: restrict each side,
independently, to the annotations of class `cls_id`. -/
def filter_dataset_to_label (gts preds : Data Ann) (cls_id : Int) :
    Data Ann × Data Ann :=
  let gts_ids := ((gts.annotations.filter (fun g => g.«class» = cls_id)).map
    (fun g => g._id)).toFinset
  let preds_ids := ((preds.annotations.filter (fun p => p.«class» = cls_id)).map
    (fun p => p._id)).toFinset
  ((create_filtered_Data gts gts_ids "filtered_data").1,
   (create_filtered_Data preds preds_ids "filtered_data").1)

/-- An annotation dictionary in the heap rendering used to reason about
object identity: the mutable `info` sub-dictionary is held by reference
(an index into a separate table of `Info` objects), exactly as a Python
dict holds a reference to a nested dict. -/
structure AnnObj where
  _id : Nat
  image_id : String
  «class» : Int
  bbox : List Int
  score : Option ℚ
  info : Option Nat
deriving DecidableEq, Inhabited

/-- `reindex` on heap annotation objects: `copy(ann)` duplicates the
top-level dictionary — including its `info` *reference* — and then
overwrites `_id` on the duplicate. -/
def reindexObj (anns : List AnnObj) (i : Nat) : List AnnObj × List (Nat × Nat) :=
  match anns with
  | [] => ([], [])
  | a :: rest =>
      let res := reindexObj rest (i + 1)
      ({ a with _id := i } :: res.1, (i, a._id) :: res.2)

/-- Heap rendering of `create_filtered_Data`'s annotation loop: the input
dataset's annotations are references `annRefs` into the annotation heap;
each kept annotation is shallow-copied into a freshly allocated cell (the
heap grows by appending) with `_id` overwritten.  Returns the new heap,
the references held by the filtered dataset, and `new_id_to_old_id`. -/
def create_filtered_Data_heap (heap : List AnnObj) (annRefs : List Nat)
    (ids_keep : Finset Nat) : List AnnObj × List Nat × List (Nat × Nat) :=
  let kept := annRefs.filter (fun r => (heap.getD r default)._id ∈ ids_keep)
  let res := reindexObj (kept.map (fun r => heap.getD r default)) 0
  (heap ++ res.1, List.range' heap.length res.1.length, res.2)

/-- The references to mutable `info` objects reachable from a list of
annotation references. -/
def infoRefs (heap : List AnnObj) (refs : List Nat) : List Nat :=
  refs.filterMap (fun r => (heap.getD r default).info)

/-- Two datasets, given by their annotation references into a common heap,
share mutable state when they hold a common annotation object or when
their annotations hold a common `info` object. -/
def sharesMutableState (heap : List AnnObj) (refs1 refs2 : List Nat) : Prop :=
  (∃ r ∈ refs1, r ∈ refs2) ∨ (∃ j ∈ infoRefs heap refs1, j ∈ infoRefs heap refs2)

instance (heap : List AnnObj) (refs1 refs2 : List Nat) :
    Decidable (sharesMutableState heap refs1 refs2) := by
  unfold sharesMutableState; infer_instance

instance : DecidableEq (Data Ann × Data Ann × List (Nat × Nat) × List (Nat × Nat)) :=
  inferInstance

/-- Dictionary lookup in a grouped association list, returning `[]` for a
missing key (the `defaultdict(list)` read view). -/
def lookupG (acc : List (String × List Nat)) (k : String) : List Nat :=
  match acc.find? (fun q => q.1 = k) with
  | some q => q.2
  | none => []

/-- Spec §3 invariants 1–3 of an Indexed Dataset: dense `_id`s matching
positions, an exact two-way correspondence between `images` and the
annotations' `image_id`s, and `classes` keyed by exactly the annotation
class values. -/
def Data.invariants (d : Data Ann) : Prop :=
  d.annotations.map Ann._id = List.range d.annotations.length ∧
  (d.images.map Prod.fst).Nodup ∧
  (d.images.map Prod.fst).toFinset = (d.annotations.map Ann.image_id).toFinset ∧
  (∀ q ∈ d.images, q.2.anns =
    (d.annotations.filter (fun a => a.image_id = q.1)).map Ann._id) ∧
  (d.classes.map Prod.fst).Nodup ∧
  (d.classes.map Prod.fst).toFinset = (d.annotations.map (fun a => a.«class»)).toFinset

instance (d : Data Ann) : Decidable d.invariants := by
  unfold Data.invariants; infer_instance

/-- Spec §3 invariants 1–3 for an importer-produced dataset, whose
annotation dictionaries have `Option`-valued `_id` and `class` keys. -/
def invariantsR (d : Data RecDict) : Prop :=
  d.annotations.map RecDict._id = (List.range d.annotations.length).map some ∧
  (d.images.map Prod.fst).Nodup ∧
  (d.images.map Prod.fst).toFinset = (d.annotations.map RecDict.image_id).toFinset ∧
  (∀ q ∈ d.images, q.2.anns =
    (d.annotations.filter (fun r => r.image_id = q.1)).filterMap RecDict._id) ∧
  (d.classes.map Prod.fst).Nodup ∧
  (d.classes.map Prod.fst).toFinset = (d.annotations.filterMap (fun r => r.«class»)).toFinset

instance (d : Data RecDict) : Decidable (invariantsR d) := by
  unfold invariantsR; infer_instance

/-- Every prediction annotation carries an `info` dictionary. -/
def infoTotal (preds : Data Ann) : Prop :=
  ∀ a ∈ preds.annotations, a.info ≠ none

instance (preds : Data Ann) : Decidable (infoTotal preds) := by
  unfold infoTotal; infer_instance

/-- The `matched_with` value of an annotation, when its `info` dictionary
is present and has the key. -/
def matchedOf (a : Ann) : Option Nat :=
  a.info.bind Info.matched_with

/-- Spec §3 invariant 4: every `matched_with` recorded on a prediction is
a valid `_id` of the ground-truth dataset. -/
def matchedValid (gts preds : Data Ann) : Prop :=
  ∀ a ∈ preds.annotations, ∀ g ∈ matchedOf a, g ∈ gts.annotations.map Ann._id

instance (gts preds : Data Ann) : Decidable (matchedValid gts preds) := by
  unfold matchedValid; infer_instance

/-- Pure value of the `assoc_gts` comprehension (meaningful when every
annotation has an `info` dictionary; an absent one is skipped here where
the code would raise): the `matched_with` targets of the kept
predictions. -/
def assocGtsSet (anns : List Ann) (preds_keep : Finset Nat) : Finset Nat :=
  (anns.filterMap (fun a =>
    if a._id ∈ preds_keep then matchedOf a else none)).toFinset

/-- Pure value of the `assoc_preds` comprehension (same caveat as
`assocGtsSet`): the ids of the predictions matched into `filetered_gts`. -/
def assocPredsSet (anns : List Ann) (filetered_gts : Finset Nat) : Finset Nat :=
  (anns.filterMap (fun a =>
    (matchedOf a).bind (fun g =>
      if g ∈ filetered_gts then some a._id else none))).toFinset

/-- The original `_id`s of the annotations of `d` retained by `K`, in
order — the values of the `new_id_to_old_id` mapping of
`create_filtered_Data d K`. -/
def keptIds (d : Data Ann) (K : Finset Nat) : List Nat :=
  (d.annotations.filter (fun a => a._id ∈ K)).map Ann._id

/-- An annotation with its `_id` normalised away, to compare annotation
lists up to the renumbering. -/
def eraseId (a : Ann) : Ann := { a with _id := 0 }

/-- A one-annotation ground-truth dataset in the importer's canonical
form. -/
def exGt0 : Ann :=
  { _id := 0, image_id := "a", «class» := 5, bbox := [0, 0, 1, 1],
    mask := none, ignore := false, score := none, info := none }

def exGts : Data Ann :=
  { name := "test_gt", annotations := [exGt0], classes := [(5, "Class 5")],
    images := [("a", { name := "Image a", anns := [0] })] }

/-- A one-annotation prediction dataset whose prediction is matched to
ground truth 0. -/
def exPred0 : Ann :=
  { _id := 0, image_id := "a", «class» := 5, bbox := [0, 0, 1, 1],
    mask := none, ignore := false, score := none,
    info := some { matched_with := some 0 } }

def exPreds : Data Ann :=
  { name := "test_pred", annotations := [exPred0], classes := [(5, "Class 5")],
    images := [("a", { name := "Image a", anns := [0] })] }

/-- A prediction annotation with no `info` dictionary at all. -/
def exPredNoInfo : Ann :=
  { _id := 0, image_id := "a", «class» := 5, bbox := [0, 0, 1, 1],
    mask := none, ignore := false, score := none, info := none }

def exPredsNoInfo : Data Ann :=
  { name := "test_pred", annotations := [exPredNoInfo],
    classes := [(5, "Class 5")],
    images := [("a", { name := "Image a", anns := [0] })] }

/-- A prediction annotation whose `info` dictionary is present but has no
`matched_with` key. -/
def exPredUnmatched : Ann :=
  { _id := 0, image_id := "a", «class» := 5, bbox := [0, 0, 1, 1],
    mask := none, ignore := false, score := none,
    info := some { matched_with := none } }

def exPredsUnmatched : Data Ann :=
  { name := "test_pred", annotations := [exPredUnmatched],
    classes := [(5, "Class 5")],
    images := [("a", { name := "Image a", anns := [0] })] }

/-- A dataset satisfying invariants 1–3 whose class label is not in the
synthesized `"Class {id}"` form. -/
def exNonCanon : Data Ann :=
  { name := "test_gt", annotations := [exGt0], classes := [(5, "dog")],
    images := [("a", { name := "Image a", anns := [0] })] }

/-- The two records of the spec §8 importer scenario. -/
def exRecord1 : RecDict :=
  { is_gold := true, is_pred := false, gold := some 5, pred := none,
    image_id := "a", bbox_xywh := [0, 0, 1, 1], confidence := none,
    info := none, _id := none, «class» := none, bbox := none, mask := none,
    ignore := none, score := none }

def exRecord2 : RecDict :=
  { is_gold := false, is_pred := true, gold := none, pred := some 5,
    image_id := "a", bbox_xywh := [0, 0, 1, 1], confidence := some (mkRat 9 10),
    info := some { matched_with := some 0 }, _id := none, «class» := none,
    bbox := none, mask := none, ignore := none, score := none }

/-- A gold-only record and a record carrying both tags, used to exhibit
the aliasing between the importer's two outputs. -/
def exGoldOnly : RecDict :=
  { is_gold := true, is_pred := false, gold := some 5, pred := none,
    image_id := "a", bbox_xywh := [0, 0, 1, 1], confidence := none,
    info := none, _id := none, «class» := none, bbox := none, mask := none,
    ignore := none, score := none }

def exBothTags : RecDict :=
  { is_gold := true, is_pred := true, gold := some 5, pred := some 7,
    image_id := "a", bbox_xywh := [0, 0, 1, 1], confidence := some 1,
    info := none, _id := none, «class» := none, bbox := none, mask := none,
    ignore := none, score := none }

/-- A one-cell annotation heap whose annotation holds an `info` object
(reference 0 in the info table). -/
def exObjHeap : List AnnObj :=
  [{ _id := 0, image_id := "a", «class» := 5, bbox := [0, 0, 1, 1],
     score := none, info := some 0 }]

/-! ### Lemmas: the grouped image dictionary -/

theorem lookupG_nil (k : String) : lookupG [] k = [] := rfl

theorem addPair_keys (acc : List (String × List Nat)) (k : String) (v : Nat) :
    (addPair acc k v).map Prod.fst =
      if k ∈ acc.map Prod.fst then acc.map Prod.fst else acc.map Prod.fst ++ [k] := by
  induction acc with
  | nil => simp [addPair]
  | cons q rest ih =>
      obtain ⟨k', l⟩ := q
      by_cases h : k' = k
      · subst h
        simp [addPair]
      · have h' : ¬k = k' := fun e => h e.symm
        simp only [addPair, if_neg h, List.map_cons, ih, List.mem_cons, h', false_or]
        by_cases hk : k ∈ rest.map Prod.fst <;> simp [hk]

theorem addPair_mem_keys (acc : List (String × List Nat)) (k : String) (v : Nat)
    (k' : String) :
    k' ∈ (addPair acc k v).map Prod.fst ↔ k' ∈ acc.map Prod.fst ∨ k' = k := by
  rw [addPair_keys]
  by_cases h : k ∈ acc.map Prod.fst
  · rw [if_pos h]
    constructor
    · exact Or.inl
    · rintro (hm | rfl)
      · exact hm
      · exact h
  · rw [if_neg h]
    simp [List.mem_append]

theorem addPair_keys_nodup (acc : List (String × List Nat)) (k : String) (v : Nat)
    (h : (acc.map Prod.fst).Nodup) : ((addPair acc k v).map Prod.fst).Nodup := by
  rw [addPair_keys]
  by_cases hm : k ∈ acc.map Prod.fst
  · rwa [if_pos hm]
  · rw [if_neg hm, List.nodup_append]
    refine ⟨h, List.nodup_singleton k, ?_⟩
    intro a ha hb
    rw [List.mem_singleton] at hb
    subst hb
    exact hm ha

theorem lookupG_cons (q : String × List Nat) (rest : List (String × List Nat))
    (k : String) :
    lookupG (q :: rest) k = if q.1 = k then q.2 else lookupG rest k := by
  by_cases h : q.1 = k
  · simp [lookupG, List.find?_cons_of_pos, h]
  · simp [lookupG, List.find?_cons_of_neg, h]

theorem lookupG_addPair_same (acc : List (String × List Nat)) (k : String) (v : Nat) :
    lookupG (addPair acc k v) k = lookupG acc k ++ [v] := by
  induction acc with
  | nil => simp [addPair, lookupG_cons, lookupG_nil]
  | cons q rest ih =>
      obtain ⟨k', l⟩ := q
      by_cases h : k' = k
      · subst h
        simp [addPair, lookupG_cons]
      · simp [addPair, h, lookupG_cons, ih]

theorem lookupG_addPair_ne (acc : List (String × List Nat)) (k : String) (v : Nat)
    (k' : String) (h : k' ≠ k) :
    lookupG (addPair acc k v) k' = lookupG acc k' := by
  have h' : ¬k = k' := fun e => h e.symm
  induction acc with
  | nil => simp [addPair, lookupG_cons, lookupG_nil, h']
  | cons q rest ih =>
      obtain ⟨k'', l⟩ := q
      by_cases hq : k'' = k
      · subst hq
        simp [addPair, lookupG_cons, h']
      · simp [addPair, hq, lookupG_cons, ih]

theorem foldGroup_mem_keys (ps : List (String × Nat)) (acc : List (String × List Nat))
    (k : String) :
    k ∈ (ps.foldl (fun a p => addPair a p.1 p.2) acc).map Prod.fst ↔
      k ∈ acc.map Prod.fst ∨ k ∈ ps.map Prod.fst := by
  induction ps generalizing acc with
  | nil => simp
  | cons p ps ih =>
      simp only [List.foldl_cons, ih, addPair_mem_keys, List.map_cons, List.mem_cons]
      tauto

theorem foldGroup_keys_nodup (ps : List (String × Nat)) (acc : List (String × List Nat))
    (h : (acc.map Prod.fst).Nodup) :
    ((ps.foldl (fun a p => addPair a p.1 p.2) acc).map Prod.fst).Nodup := by
  induction ps generalizing acc with
  | nil => exact h
  | cons p ps ih => exact ih _ (addPair_keys_nodup _ _ _ h)

theorem foldGroup_lookupG (ps : List (String × Nat)) (acc : List (String × List Nat))
    (k : String) :
    lookupG (ps.foldl (fun a p => addPair a p.1 p.2) acc) k =
      lookupG acc k ++ (ps.filter (fun p => p.1 = k)).map Prod.snd := by
  induction ps generalizing acc with
  | nil => simp
  | cons p ps ih =>
      rw [List.foldl_cons, ih]
      by_cases h : p.1 = k
      · subst h
        rw [lookupG_addPair_same]
        simp [List.filter_cons, List.append_assoc]
      · rw [lookupG_addPair_ne acc p.1 p.2 k (fun e => h e.symm)]
        simp [List.filter_cons, h]

theorem find?_eq_of_mem_keys_nodup (res : List (String × List Nat))
    (q : String × List Nat) (hnd : (res.map Prod.fst).Nodup) (hq : q ∈ res) :
    res.find? (fun r => r.1 = q.1) = some q := by
  induction res with
  | nil => cases hq
  | cons r rest ih =>
      rcases List.mem_cons.mp hq with rfl | hmem
      · exact List.find?_cons_of_pos _ (by simp)
      · have hne : r.1 ≠ q.1 := by
          intro hkk
          exact (List.nodup_cons.mp hnd).1 (hkk ▸ List.mem_map_of_mem Prod.fst hmem)
        rw [List.find?_cons_of_neg _ (by simpa using hne)]
        exact ih (List.nodup_cons.mp hnd).2 hmem

theorem groupPairs_keys_nodup (ps : List (String × Nat)) :
    ((groupPairs ps).map Prod.fst).Nodup :=
  foldGroup_keys_nodup ps [] (by simp)

theorem groupPairs_mem_keys (ps : List (String × Nat)) (k : String) :
    k ∈ (groupPairs ps).map Prod.fst ↔ k ∈ ps.map Prod.fst := by
  simpa [groupPairs] using foldGroup_mem_keys ps [] k

theorem groupPairs_entries (ps : List (String × Nat)) (q : String × List Nat)
    (hq : q ∈ groupPairs ps) :
    q.2 = (ps.filter (fun p => p.1 = q.1)).map Prod.snd := by
  have h1 : lookupG (groupPairs ps) q.1 = q.2 := by
    unfold lookupG
    rw [find?_eq_of_mem_keys_nodup _ q (groupPairs_keys_nodup ps) hq]
  have h2 := foldGroup_lookupG ps [] q.1
  simp only [groupPairs] at h1
  rw [h1] at h2
  simpa [lookupG] using h2

/-! ### Lemmas: the sorted classes dictionary -/

theorem mem_insertSortedInt (x a : Int) (l : List Int) :
    a ∈ insertSortedInt x l ↔ a = x ∨ a ∈ l := by
  induction l with
  | nil => simp [insertSortedInt]
  | cons y ys ih =>
      by_cases h : x ≤ y
      · simp [insertSortedInt, h]
      · simp only [insertSortedInt, if_neg h, List.mem_cons, ih]
        tauto

theorem nodup_insertSortedInt (x : Int) (l : List Int) (hx : x ∉ l)
    (h : l.Nodup) : (insertSortedInt x l).Nodup := by
  induction l with
  | nil => simp [insertSortedInt]
  | cons y ys ih =>
      rw [List.nodup_cons] at h
      by_cases hle : x ≤ y
      · rw [insertSortedInt, if_pos hle]
        exact List.nodup_cons.mpr ⟨hx, List.nodup_cons.mpr h⟩
      · rw [insertSortedInt, if_neg hle]
        refine List.nodup_cons.mpr ⟨?_, ih (fun hm => hx (List.mem_cons_of_mem _ hm)) h.2⟩
        rw [mem_insertSortedInt]
        rintro (rfl | hm)
        · exact hx (List.mem_cons_self _ _)
        · exact h.1 hm

theorem mem_foldr_insertSortedInt (l : List Int) (a : Int) :
    a ∈ l.foldr insertSortedInt [] ↔ a ∈ l := by
  induction l with
  | nil => simp
  | cons x xs ih => simp [mem_insertSortedInt, ih]

theorem nodup_foldr_insertSortedInt (l : List Int) (h : l.Nodup) :
    (l.foldr insertSortedInt []).Nodup := by
  induction l with
  | nil => simp
  | cons x xs ih =>
      rw [List.nodup_cons] at h
      exact nodup_insertSortedInt x _ (fun hm => h.1 ((mem_foldr_insertSortedInt xs x).mp hm))
        (ih h.2)

theorem mem_sortedClassKeys (cs : List Int) (a : Int) :
    a ∈ sortedClassKeys cs ↔ a ∈ cs := by
  rw [sortedClassKeys, mem_foldr_insertSortedInt, List.mem_dedup]

theorem nodup_sortedClassKeys (cs : List Int) : (sortedClassKeys cs).Nodup :=
  nodup_foldr_insertSortedInt _ cs.nodup_dedup

theorem canonicalClasses_keys (cs : List Int) :
    (canonicalClasses cs).map Prod.fst = sortedClassKeys cs := by
  unfold canonicalClasses
  rw [List.map_map]
  have hcomp : (Prod.fst ∘ fun i : Int => (i, s!"Class {i}")) = id := rfl
  rw [hcomp, List.map_id]

theorem canonicalClasses_keys_nodup (cs : List Int) :
    ((canonicalClasses cs).map Prod.fst).Nodup := by
  rw [canonicalClasses_keys]
  exact nodup_sortedClassKeys cs

theorem canonicalClasses_keys_toFinset (cs : List Int) :
    ((canonicalClasses cs).map Prod.fst).toFinset = cs.toFinset := by
  rw [canonicalClasses_keys]
  ext a
  simp [mem_sortedClassKeys]

/-! ### Lemmas: the renumbering loop -/

theorem reindex_fst_map_id (l : List Ann) (i : Nat) :
    (reindex l i).1.map Ann._id = List.range' i l.length := by
  induction l generalizing i with
  | nil => simp [reindex]
  | cons a rest ih => simp [reindex, List.range', ih]

theorem reindex_snd_map_fst (l : List Ann) (i : Nat) :
    (reindex l i).2.map Prod.fst = List.range' i l.length := by
  induction l generalizing i with
  | nil => simp [reindex]
  | cons a rest ih => simp [reindex, List.range', ih]

theorem reindex_snd_map_snd (l : List Ann) (i : Nat) :
    (reindex l i).2.map Prod.snd = l.map Ann._id := by
  induction l generalizing i with
  | nil => simp [reindex]
  | cons a rest ih => simp [reindex, ih]

theorem reindex_fst_length (l : List Ann) (i : Nat) :
    (reindex l i).1.length = l.length := by
  have := congrArg List.length (reindex_fst_map_id l i)
  simpa using this

theorem reindex_snd_length (l : List Ann) (i : Nat) :
    (reindex l i).2.length = l.length := by
  have := congrArg List.length (reindex_snd_map_fst l i)
  simpa using this

theorem reindex_map {β : Type} (f : Ann → β)
    (hf : ∀ (a : Ann) (j : Nat), f { a with _id := j } = f a) (l : List Ann) (i : Nat) :
    (reindex l i).1.map f = l.map f := by
  induction l generalizing i with
  | nil => simp [reindex]
  | cons a rest ih => simp [reindex, ih, hf]

theorem reindex_fst_get? (l : List Ann) (i j : Nat) :
    (reindex l i).1.get? j = (l.get? j).map (fun a => { a with _id := i + j }) := by
  induction l generalizing i j with
  | nil => simp [reindex]
  | cons a rest ih =>
      cases j with
      | zero => simp [reindex]
      | succ j =>
          have harith : i + 1 + j = i + (j + 1) := by omega
          simp only [reindex, List.get?_cons_succ]
          rw [ih, harith]

theorem reindex_snd_get? (l : List Ann) (i j : Nat) :
    (reindex l i).2.get? j = (l.get? j).map (fun a => (i + j, a._id)) := by
  induction l generalizing i j with
  | nil => simp [reindex]
  | cons a rest ih =>
      cases j with
      | zero => simp [reindex]
      | succ j =>
          have harith : i + 1 + j = i + (j + 1) := by omega
          simp only [reindex, List.get?_cons_succ]
          rw [ih, harith]

/-! ### Lemmas: pairs of an annotation list -/

theorem pairs_filter_map (l : List Ann) (k : String) :
    ((l.map (fun a => (a.image_id, a._id))).filter (fun p => p.1 = k)).map Prod.snd =
      (l.filter (fun a => a.image_id = k)).map Ann._id := by
  induction l with
  | nil => simp
  | cons a rest ih =>
      by_cases h : a.image_id = k <;> simp [List.filter_cons, h, ih]

theorem pairs_map_fst (l : List Ann) :
    (l.map (fun a => (a.image_id, a._id))).map Prod.fst = l.map Ann.image_id := by
  rw [List.map_map]
  rfl

theorem canonicalImages_keys (ps : List (String × Nat)) :
    (canonicalImages ps).map Prod.fst = (groupPairs ps).map Prod.fst := by
  unfold canonicalImages
  rw [List.map_map]
  rfl

/-- C3 — Subset Filter invariant preservation: for every input dataset and
every `keep_ids`, the dataset returned by `create_filtered_Data` satisfies
§3 invariants 1–3 (dense positional `_id`s, exact images index, exact
classes keys). -/
theorem create_filtered_Data_invariants (d : Data Ann) (K : Finset Nat) (nm : String) :
    (create_filtered_Data d K nm).1.invariants := by
  unfold Data.invariants create_filtered_Data
  simp only
  refine ⟨?_, ?_, ?_, ?_, ?_, ?_⟩
  · rw [reindex_fst_map_id, reindex_fst_length, List.range_eq_range']
  · rw [canonicalImages_keys]
    exact groupPairs_keys_nodup _
  · rw [canonicalImages_keys]
    ext k
    simp only [List.mem_toFinset]
    rw [groupPairs_mem_keys, pairs_map_fst]
  · intro q hq
    simp only [canonicalImages, List.mem_map] at hq
    obtain ⟨p, hp, rfl⟩ := hq
    simpa [pairs_filter_map] using groupPairs_entries _ p hp
  · exact canonicalClasses_keys_nodup _
  · rw [canonicalClasses_keys_toFinset]

/-! ### Lemmas: the subset filter -/

theorem filter_mem_congr (d : Data Ann) (K K' : Finset Nat)
    (h : ∀ a ∈ d.annotations, a._id ∈ K ↔ a._id ∈ K') (nm : String) :
    create_filtered_Data d K nm = create_filtered_Data d K' nm := by
  unfold create_filtered_Data
  have hf : d.annotations.filter (fun a => a._id ∈ K) =
      d.annotations.filter (fun a => a._id ∈ K') := by
    apply List.filter_congr
    intro a ha
    exact decide_eq_decide.mpr (h a ha)
  simp only [hf]

theorem update_id_self (a : Ann) : { a with _id := a._id } = a := by
  cases a
  rfl

theorem reindex_of_positional (l : List Ann) (i : Nat)
    (h : l.map Ann._id = List.range' i l.length) :
    reindex l i = (l, (List.range' i l.length).map (fun j => (j, j))) := by
  induction l generalizing i with
  | nil => simp [reindex]
  | cons a rest ih =>
      rw [List.map_cons, List.length_cons, List.range'_succ, List.cons.injEq] at h
      obtain ⟨h1, h2⟩ := h
      rw [List.length_cons, List.range'_succ, List.map_cons]
      rw [reindex, ih (i + 1) h2]
      rw [← h1, update_id_self]

/-- C7 — Silent-ignore of unknown keep ids: `create_filtered_Data` returns
exactly what it returns on `keep_ids` intersected with the dataset's `_id`
set (ids absent from the dataset contribute nothing and raise nothing),
and on the empty keep-set it returns an empty dataset with empty
`classes`, `images` and `new_id_to_old_id`. -/
theorem create_filtered_Data_silent_ignore (d : Data Ann) (K : Finset Nat) (nm : String) :
    create_filtered_Data d K nm =
      create_filtered_Data d (K ∩ (d.annotations.map Ann._id).toFinset) nm ∧
    create_filtered_Data d ∅ nm =
      ({ name := nm, annotations := [], classes := [], images := [] }, []) := by
  constructor
  · apply filter_mem_congr
    intro a ha
    simp only [Finset.mem_inter, List.mem_toFinset, iff_self_and]
    intro _
    exact List.mem_map_of_mem Ann._id ha
  · have hf : d.annotations.filter (fun a => a._id ∈ (∅ : Finset Nat)) = [] := by
      simp
    simp only [create_filtered_Data, hf]
    rfl

/-- C5 — Subset Filter selection semantics: the output annotations are the
input annotations with `_id ∈ keep_ids`, in input order, each a copy of
its source with only `_id` replaced by its position; `new_id_to_old_id`
pairs each new id with the old `_id` of the same annotation, its domain is
`{0, …, K-1}` and its values are strictly increasing (hence injective). -/
theorem create_filtered_Data_selection (d : Data Ann) (K : Finset Nat) (nm : String)
    (hinv : d.invariants) :
    ((create_filtered_Data d K nm).2.map Prod.fst =
        List.range (create_filtered_Data d K nm).1.annotations.length) ∧
    ((create_filtered_Data d K nm).1.annotations.map eraseId =
        (d.annotations.filter (fun a => a._id ∈ K)).map eraseId) ∧
    ((create_filtered_Data d K nm).2.map Prod.snd =
        (d.annotations.filter (fun a => a._id ∈ K)).map Ann._id) ∧
    (∀ j b, (create_filtered_Data d K nm).1.annotations.get? j = some b →
        b._id = j ∧
        ∃ a ∈ d.annotations, a._id ∈ K ∧ b = { a with _id := j } ∧
          (create_filtered_Data d K nm).2.get? j = some (j, a._id)) ∧
    ((create_filtered_Data d K nm).2.map Prod.snd).Pairwise (· < ·) := by
  unfold create_filtered_Data
  simp only
  refine ⟨?_, ?_, ?_, ?_, ?_⟩
  · rw [reindex_snd_map_fst, reindex_fst_length, List.range_eq_range']
  · exact reindex_map eraseId (fun a j => rfl) _ 0
  · exact reindex_snd_map_snd _ 0
  · intro j b hb
    rw [reindex_fst_get?] at hb
    obtain ⟨a, ha, hab⟩ := Option.map_eq_some'.mp hb
    obtain ⟨hmem, hk⟩ := List.mem_filter.mp (List.get?_mem ha)
    refine ⟨by rw [← hab]; simp, a, hmem, by simpa using hk, by simpa using hab.symm, ?_⟩
    rw [reindex_snd_get?, ha]
    simp
  · rw [reindex_snd_map_snd]
    have hsub : ((d.annotations.filter (fun a => a._id ∈ K)).map Ann._id).Sublist
        (d.annotations.map Ann._id) :=
      (List.filter_sublist _).map Ann._id
    have hpw : (d.annotations.map Ann._id).Pairwise (· < ·) := by
      rw [hinv.1]
      exact List.pairwise_lt_range _
    exact List.Pairwise.sublist hsub hpw

/-- C6 (amended) — Full-set filter idempotence: filtering to
`{0, …, N-1}` returns the annotations unchanged, the identity
`new_to_old`, and the canonical re-synthesized `classes` and `images` of
those same annotations (equal to the input's whenever the input's labels
and image records are in the importer's canonical form). -/
theorem create_filtered_Data_full_set (d : Data Ann) (hinv : d.invariants) :
    (create_filtered_Data d ((List.range d.annotations.length).toFinset)
        "filtered_data").1.annotations = d.annotations ∧
    (create_filtered_Data d ((List.range d.annotations.length).toFinset)
        "filtered_data").2 =
      (List.range d.annotations.length).map (fun j => (j, j)) ∧
    (create_filtered_Data d ((List.range d.annotations.length).toFinset)
        "filtered_data").1.classes =
      canonicalClasses (d.annotations.map (fun a => a.«class»)) ∧
    (create_filtered_Data d ((List.range d.annotations.length).toFinset)
        "filtered_data").1.images =
      canonicalImages (d.annotations.map (fun a => (a.image_id, a._id))) := by
  have hkept : d.annotations.filter
      (fun a => a._id ∈ (List.range d.annotations.length).toFinset) = d.annotations := by
    apply List.filter_eq_self.mpr
    intro a ha
    have : a._id ∈ d.annotations.map Ann._id := List.mem_map_of_mem Ann._id ha
    rw [hinv.1, List.mem_range] at this
    simpa [List.mem_toFinset, List.mem_range] using this
  have hpos : d.annotations.map Ann._id = List.range' 0 d.annotations.length := by
    rw [hinv.1, List.range_eq_range']
  have hre := reindex_of_positional d.annotations 0 hpos
  refine ⟨?_, ?_, ?_, ?_⟩
  · simp only [create_filtered_Data, hkept, hre]
  · simp only [create_filtered_Data, hkept, hre]
    rw [← List.range_eq_range']
  · simp only [create_filtered_Data, hkept, hre]
  · simp only [create_filtered_Data, hkept, hre]

/-- Witness for C5 at the concrete dataset `exGts` with `keep_ids = {0}`. -/
theorem create_filtered_Data_selection_witness :
    exGts.invariants ∧
    (((create_filtered_Data exGts {0} "f").2.map Prod.fst =
        List.range (create_filtered_Data exGts {0} "f").1.annotations.length) ∧
    ((create_filtered_Data exGts {0} "f").1.annotations.map eraseId =
        (exGts.annotations.filter (fun a => a._id ∈ ({0} : Finset Nat))).map eraseId) ∧
    ((create_filtered_Data exGts {0} "f").2.map Prod.snd =
        (exGts.annotations.filter (fun a => a._id ∈ ({0} : Finset Nat))).map Ann._id) ∧
    (∀ j b, (create_filtered_Data exGts {0} "f").1.annotations.get? j = some b →
        b._id = j ∧
        ∃ a ∈ exGts.annotations, a._id ∈ ({0} : Finset Nat) ∧ b = { a with _id := j } ∧
          (create_filtered_Data exGts {0} "f").2.get? j = some (j, a._id)) ∧
    ((create_filtered_Data exGts {0} "f").2.map Prod.snd).Pairwise (· < ·)) :=
  ⟨by decide, create_filtered_Data_selection exGts {0} "f" (by decide)⟩

/-- Witness for C6 at the concrete canonical dataset `exGts`. -/
theorem create_filtered_Data_full_set_witness :
    exGts.invariants ∧
    ((create_filtered_Data exGts ((List.range exGts.annotations.length).toFinset)
        "filtered_data").1.annotations = exGts.annotations ∧
    (create_filtered_Data exGts ((List.range exGts.annotations.length).toFinset)
        "filtered_data").2 =
      (List.range exGts.annotations.length).map (fun j => (j, j)) ∧
    (create_filtered_Data exGts ((List.range exGts.annotations.length).toFinset)
        "filtered_data").1.classes =
      canonicalClasses (exGts.annotations.map (fun a => a.«class»)) ∧
    (create_filtered_Data exGts ((List.range exGts.annotations.length).toFinset)
        "filtered_data").1.images =
      canonicalImages (exGts.annotations.map (fun a => (a.image_id, a._id)))) :=
  ⟨by decide, create_filtered_Data_full_set exGts (by decide)⟩

/-- C6 counterexample: a dataset satisfying the §3 invariants whose class
label is not in the synthesized form; filtering it to the full id set
rebuilds `classes` with the synthesized label, so the output `classes` do
not equal the input's. -/
theorem full_set_filter_classes_ne :
    exNonCanon.invariants ∧
    (create_filtered_Data exNonCanon
        ((List.range exNonCanon.annotations.length).toFinset)
        "filtered_data").1.classes ≠ exNonCanon.classes :=
  ⟨by decide, by decide⟩

/-- C8 (amended) — Subset Filter frame: the heap region holding the input
is untouched (in particular every source annotation keeps its `_id`), and
the output dataset's annotation records are freshly allocated, so no
top-level annotation object is shared; nested `info` objects, being only
shallow-copied, remain shared (see the counterexample). -/
theorem create_filtered_Data_heap_frame (heap : List AnnObj) (annRefs : List Nat)
    (K : Finset Nat) :
    ((create_filtered_Data_heap heap annRefs K).1.take heap.length = heap) ∧
    (∀ r ∈ (create_filtered_Data_heap heap annRefs K).2.1, heap.length ≤ r) := by
  unfold create_filtered_Data_heap
  constructor
  · simp [List.take_left]
  · intro r hr
    simp only [List.mem_range'] at hr
    omega

/-! ### Lemmas: the consistency enlarger -/

theorem mem_assocGtsSet (anns : List Ann) (keep : Finset Nat) (g : Nat) :
    g ∈ assocGtsSet anns keep ↔
      ∃ a ∈ anns, matchedOf a = some g ∧ a._id ∈ keep := by
  unfold assocGtsSet
  simp only [List.mem_toFinset, List.mem_filterMap]
  constructor
  · rintro ⟨a, ha, hopt⟩
    by_cases hk : a._id ∈ keep
    · rw [if_pos hk] at hopt
      exact ⟨a, ha, hopt, hk⟩
    · rw [if_neg hk] at hopt
      cases hopt
  · rintro ⟨a, ha, hm, hk⟩
    exact ⟨a, ha, by rw [if_pos hk]; exact hm⟩

theorem mem_assocPredsSet (anns : List Ann) (F : Finset Nat) (x : Nat) :
    x ∈ assocPredsSet anns F ↔
      ∃ a ∈ anns, a._id = x ∧ ∃ g, matchedOf a = some g ∧ g ∈ F := by
  unfold assocPredsSet
  simp only [List.mem_toFinset, List.mem_filterMap, Option.bind_eq_some]
  constructor
  · rintro ⟨a, ha, g, hm, hif⟩
    by_cases hg : g ∈ F
    · rw [if_pos hg] at hif
      cases hif
      exact ⟨a, ha, rfl, g, hm, hg⟩
    · rw [if_neg hg] at hif
      cases hif
  · rintro ⟨a, ha, rfl, g, hm, hg⟩
    exact ⟨a, ha, g, hm, by rw [if_pos hg]⟩

theorem assocGtsE_ok (anns : List Ann) (keep : Finset Nat)
    (h : ∀ a ∈ anns, a.info ≠ none) :
    assocGtsE anns keep = .ok (assocGtsSet anns keep) := by
  induction anns with
  | nil => rfl
  | cons a rest ih =>
      have hrest := ih (fun b hb => h b (List.mem_cons_of_mem a hb))
      cases hai : a.info with
      | none => exact absurd hai (h a (List.mem_cons_self a rest))
      | some i =>
          cases him : i.matched_with with
          | none =>
              simp [assocGtsE, assocGtsSet, hai, him, hrest, matchedOf,
                List.filterMap_cons, apply_ite]
          | some g =>
              by_cases hk : a._id ∈ keep
              · simp [assocGtsE, assocGtsSet, hai, him, hrest, hk, matchedOf,
                  List.filterMap_cons]
              · simp [assocGtsE, assocGtsSet, hai, him, hrest, hk, matchedOf,
                  List.filterMap_cons]

theorem assocPredsE_ok (anns : List Ann) (F : Finset Nat)
    (h : ∀ a ∈ anns, a.info ≠ none) :
    assocPredsE anns F = .ok (assocPredsSet anns F) := by
  induction anns with
  | nil => rfl
  | cons a rest ih =>
      have hrest := ih (fun b hb => h b (List.mem_cons_of_mem a hb))
      cases hai : a.info with
      | none => exact absurd hai (h a (List.mem_cons_self a rest))
      | some i =>
          cases him : i.matched_with with
          | none =>
              simp [assocPredsE, assocPredsSet, hai, him, hrest, matchedOf,
                List.filterMap_cons]
          | some g =>
              by_cases hg : g ∈ F
              · simp [assocPredsE, assocPredsSet, hai, him, hrest, hg, matchedOf,
                  List.filterMap_cons]
              · simp [assocPredsE, assocPredsSet, hai, him, hrest, hg, matchedOf,
                  List.filterMap_cons]

theorem assocGtsE_error (anns : List Ann) (keep : Finset Nat)
    (h : ∃ a ∈ anns, a.info = none) :
    assocGtsE anns keep = .error "KeyError: info" := by
  induction anns with
  | nil => obtain ⟨a, ha, _⟩ := h; cases ha
  | cons a rest ih =>
      cases hai : a.info with
      | none => simp [assocGtsE, hai]
      | some i =>
          obtain ⟨b, hb, hbi⟩ := h
          rcases List.mem_cons.mp hb with rfl | hbm
          · rw [hai] at hbi; cases hbi
          · have := ih ⟨b, hbm, hbi⟩
            simp [assocGtsE, hai, this]

theorem assocGtsE_skip_unmatched (a : Ann) (ha : a.info = some { matched_with := none })
    (l1 l2 : List Ann) (keep : Finset Nat) :
    assocGtsE (l1 ++ a :: l2) keep = assocGtsE (l1 ++ l2) keep := by
  induction l1 with
  | nil =>
      simp only [List.nil_append]
      cases h2 : assocGtsE l2 keep <;> simp [assocGtsE, ha, h2]
  | cons b l1 ih =>
      cases hbi : b.info with
      | none => simp [assocGtsE, hbi]
      | some j => simp [assocGtsE, hbi, ih]

theorem assocPredsE_skip_unmatched (a : Ann) (ha : a.info = some { matched_with := none })
    (l1 l2 : List Ann) (F : Finset Nat) :
    assocPredsE (l1 ++ a :: l2) F = assocPredsE (l1 ++ l2) F := by
  induction l1 with
  | nil =>
      simp only [List.nil_append]
      cases h2 : assocPredsE l2 F <;> simp [assocPredsE, ha, h2]
  | cons b l1 ih =>
      cases hbi : b.info with
      | none => simp [assocPredsE, hbi]
      | some j => simp [assocPredsE, hbi, ih]

theorem enlarge_eq (gts preds : Data Ann) (gk pk : Finset Nat)
    (h : ∀ a ∈ preds.annotations, a.info ≠ none) :
    enlarge_dataset_to_respect_TIDE gts preds gk pk =
      .ok ((create_filtered_Data gts (gk ∪ assocGtsSet preds.annotations pk)
              "filtered_data").1,
           (create_filtered_Data preds
              (assocPredsSet preds.annotations (gk ∪ assocGtsSet preds.annotations pk)
                ∪ pk) "filtered_data").1,
           (create_filtered_Data gts (gk ∪ assocGtsSet preds.annotations pk)
              "filtered_data").2,
           (create_filtered_Data preds
              (assocPredsSet preds.annotations (gk ∪ assocGtsSet preds.annotations pk)
                ∪ pk) "filtered_data").2) := by
  have h1 := assocGtsE_ok preds.annotations pk h
  have h2 := assocPredsE_ok preds.annotations
    (gk ∪ assocGtsSet preds.annotations pk) h
  simp only [enlarge_dataset_to_respect_TIDE, h1, h2]

theorem create_filtered_Data_snd_values (d : Data Ann) (K : Finset Nat) (nm : String) :
    (create_filtered_Data d K nm).2.map Prod.snd = keptIds d K := by
  unfold create_filtered_Data keptIds
  simp only
  exact reindex_snd_map_snd _ 0

theorem mem_keptIds (d : Data Ann) (K : Finset Nat) (x : Nat) :
    x ∈ keptIds d K ↔ (∃ a ∈ d.annotations, a._id = x) ∧ x ∈ K := by
  unfold keptIds
  simp only [List.mem_map, List.mem_filter, decide_eq_true_eq]
  constructor
  · rintro ⟨a, ⟨ha, hk⟩, rfl⟩
    exact ⟨⟨a, ha, rfl⟩, hk⟩
  · rintro ⟨⟨a, ha, rfl⟩, hk⟩
    exact ⟨a, ⟨ha, hk⟩, rfl⟩

theorem invariants_id_inj (d : Data Ann) (h : d.invariants) :
    ∀ a ∈ d.annotations, ∀ b ∈ d.annotations, a._id = b._id → a = b := by
  have hnd : (d.annotations.map Ann._id).Nodup := by
    rw [h.1]
    exact List.nodup_range _
  exact fun a ha b hb hab => List.inj_on_of_nodup_map hnd ha hb hab

/-- C1 — Enlarger closure: under the §3 invariants, with every prediction
carrying an `info` dictionary and every `matched_with` a valid
ground-truth id, (i) the `matched_with` target of every kept prediction is
among the retained original ground-truth ids (the values of `gts_map`),
and (ii) for every retained ground-truth id, every prediction matched to
it — kept or not — has its id among the values of `preds_map`. -/
theorem enlarger_closure (gts preds : Data Ann) (gts_keep preds_keep : Finset Nat)
    (hg : gts.invariants) (hp : preds.invariants)
    (hinfo : infoTotal preds) (hvalid : matchedValid gts preds)
    (ge pe : Data Ann) (gm pm : List (Nat × Nat))
    (hok : enlarge_dataset_to_respect_TIDE gts preds gts_keep preds_keep =
      .ok (ge, pe, gm, pm)) :
    (∀ a ∈ preds.annotations, a._id ∈ preds_keep → ∀ g ∈ matchedOf a,
        g ∈ gm.map Prod.snd) ∧
    (∀ g ∈ gm.map Prod.snd, ∀ a ∈ preds.annotations, matchedOf a = some g →
        a._id ∈ pm.map Prod.snd) := by
  rw [enlarge_eq gts preds gts_keep preds_keep hinfo] at hok
  simp only [Except.ok.injEq, Prod.mk.injEq] at hok
  obtain ⟨h1, h2, h3, h4⟩ := hok
  subst h1 h2 h3 h4
  rw [create_filtered_Data_snd_values, create_filtered_Data_snd_values]
  constructor
  · intro a ha hak g hm
    rw [Option.mem_def] at hm
    have hgF : g ∈ gts_keep ∪ assocGtsSet preds.annotations preds_keep := by
      rw [Finset.mem_union, mem_assocGtsSet]
      exact Or.inr ⟨a, ha, hm, hak⟩
    have hgid : g ∈ gts.annotations.map Ann._id := hvalid a ha g hm
    obtain ⟨b, hb, hbid⟩ := List.mem_map.mp hgid
    exact (mem_keptIds _ _ _).mpr ⟨⟨b, hb, hbid⟩, hgF⟩
  · intro g hgkept a ha hm
    have hgF : g ∈ gts_keep ∪ assocGtsSet preds.annotations preds_keep :=
      ((mem_keptIds _ _ _).mp hgkept).2
    have haP : a._id ∈
        assocPredsSet preds.annotations
          (gts_keep ∪ assocGtsSet preds.annotations preds_keep) ∪ preds_keep := by
      rw [Finset.mem_union, mem_assocPredsSet]
      exact Or.inl ⟨a, ha, rfl, g, hm, hgF⟩
    exact (mem_keptIds _ _ _).mpr ⟨⟨a, ha, rfl⟩, haP⟩

/-- Witness for C1 at the concrete datasets `exGts`, `exPreds` with
`gts_keep = ∅` and `preds_keep = {0}`. -/
theorem enlarger_closure_witness :
    exGts.invariants ∧ exPreds.invariants ∧ infoTotal exPreds ∧
    matchedValid exGts exPreds ∧
    enlarge_dataset_to_respect_TIDE exGts exPreds ∅ {0} =
      .ok ((create_filtered_Data exGts {0} "filtered_data").1,
           (create_filtered_Data exPreds {0} "filtered_data").1,
           [(0, 0)], [(0, 0)]) ∧
    ((∀ a ∈ exPreds.annotations, a._id ∈ ({0} : Finset Nat) → ∀ g ∈ matchedOf a,
        g ∈ [((0 : Nat), (0 : Nat))].map Prod.snd) ∧
     (∀ g ∈ [((0 : Nat), (0 : Nat))].map Prod.snd, ∀ a ∈ exPreds.annotations,
        matchedOf a = some g → a._id ∈ [((0 : Nat), (0 : Nat))].map Prod.snd)) :=
  ⟨by decide, by decide, by decide, by decide, by decide,
   enlarger_closure exGts exPreds ∅ {0} (by decide) (by decide) (by decide) (by decide)
     (create_filtered_Data exGts {0} "filtered_data").1
     (create_filtered_Data exPreds {0} "filtered_data").1
     [(0, 0)] [(0, 0)] (by decide)⟩

/-- C10 — the Enlarger reads `pred['info']` for every prediction
annotation, so a single annotation without the `info` key makes the whole
call raise `KeyError`, whatever the keep sets (both comprehensions visit
every prediction); with `info` present for all, the call succeeds; and an
`info` dictionary merely lacking `matched_with` never raises — such a
prediction contributes to neither `assoc_gts` nor `assoc_preds`. -/
theorem enlarger_info_key_access (gts preds : Data Ann) (gk pk : Finset Nat) :
    ((∃ a ∈ preds.annotations, a.info = none) →
        enlarge_dataset_to_respect_TIDE gts preds gk pk = .error "KeyError: info") ∧
    ((∀ a ∈ preds.annotations, a.info ≠ none) →
        ∃ x, enlarge_dataset_to_respect_TIDE gts preds gk pk = .ok x) ∧
    (∀ l1 l2 a, a.info = some { matched_with := none } →
        preds.annotations = l1 ++ a :: l2 →
        assocGtsE (l1 ++ l2) pk = assocGtsE preds.annotations pk ∧
        assocPredsE (l1 ++ l2) gk = assocPredsE preds.annotations gk) := by
  refine ⟨?_, ?_, ?_⟩
  · intro h
    unfold enlarge_dataset_to_respect_TIDE
    rw [assocGtsE_error _ _ h]
  · intro h
    exact ⟨_, enlarge_eq gts preds gk pk h⟩
  · intro l1 l2 a ha hsplit
    rw [hsplit]
    exact ⟨(assocGtsE_skip_unmatched a ha l1 l2 pk).symm,
           (assocPredsE_skip_unmatched a ha l1 l2 gk).symm⟩

/-- Witness for C10: a missing `info` key raises even with empty keeps; the
all-`info` dataset succeeds; an `info` without `matched_with` is skipped by
both comprehensions. -/
theorem enlarger_info_key_access_witness :
    (enlarge_dataset_to_respect_TIDE exGts exPredsNoInfo ∅ ∅ =
      .error "KeyError: info") ∧
    (∃ x, enlarge_dataset_to_respect_TIDE exGts exPreds ∅ ∅ = .ok x) ∧
    (assocGtsE ([] ++ []) (∅ : Finset Nat) =
        assocGtsE exPredsUnmatched.annotations ∅ ∧
     assocPredsE ([] ++ []) (∅ : Finset Nat) =
        assocPredsE exPredsUnmatched.annotations ∅) :=
  ⟨(enlarger_info_key_access exGts exPredsNoInfo ∅ ∅).1
      ⟨exPredNoInfo, by decide, rfl⟩,
   (enlarger_info_key_access exGts exPreds ∅ ∅).2.1 (by decide),
   (enlarger_info_key_access exGts exPredsUnmatched ∅ ∅).2.2 [] [] exPredUnmatched
      rfl rfl⟩

/-- C2 — Enlarger fixpoint: re-running the Enlarger on the original-id
sets retained by a first run returns exactly the same enlarged datasets
and the same `new_to_old` maps. -/
theorem enlarger_fixpoint (gts preds : Data Ann) (gts_keep preds_keep : Finset Nat)
    (hg : gts.invariants) (hp : preds.invariants)
    (hinfo : infoTotal preds) (hvalid : matchedValid gts preds)
    (ge pe : Data Ann) (gm pm : List (Nat × Nat))
    (hok : enlarge_dataset_to_respect_TIDE gts preds gts_keep preds_keep =
      .ok (ge, pe, gm, pm)) :
    enlarge_dataset_to_respect_TIDE gts preds (gm.map Prod.snd).toFinset
      (pm.map Prod.snd).toFinset = .ok (ge, pe, gm, pm) := by
  rw [enlarge_eq gts preds gts_keep preds_keep hinfo] at hok
  simp only [Except.ok.injEq, Prod.mk.injEq] at hok
  obtain ⟨h1, h2, h3, h4⟩ := hok
  subst h1 h2 h3 h4
  rw [create_filtered_Data_snd_values, create_filtered_Data_snd_values,
    enlarge_eq gts preds _ _ hinfo]
  have hmemVg : ∀ x, x ∈ (keptIds gts
      (gts_keep ∪ assocGtsSet preds.annotations preds_keep)).toFinset ↔
      (∃ b ∈ gts.annotations, b._id = x) ∧
        x ∈ gts_keep ∪ assocGtsSet preds.annotations preds_keep := by
    intro x
    rw [List.mem_toFinset, mem_keptIds]
  have hmemVp : ∀ x, x ∈ (keptIds preds
      (assocPredsSet preds.annotations
        (gts_keep ∪ assocGtsSet preds.annotations preds_keep) ∪ preds_keep)).toFinset ↔
      (∃ c ∈ preds.annotations, c._id = x) ∧
        x ∈ assocPredsSet preds.annotations
          (gts_keep ∪ assocGtsSet preds.annotations preds_keep) ∪ preds_keep := by
    intro x
    rw [List.mem_toFinset, mem_keptIds]
  -- every ground-truth id collected by the second run's assoc_gts was
  -- already in the first run's enlarged ground-truth set
  have hA2 : ∀ g, g ∈ assocGtsSet preds.annotations
      (keptIds preds (assocPredsSet preds.annotations
        (gts_keep ∪ assocGtsSet preds.annotations preds_keep) ∪ preds_keep)).toFinset →
      g ∈ gts_keep ∪ assocGtsSet preds.annotations preds_keep := by
    intro g hg2
    rw [mem_assocGtsSet] at hg2
    obtain ⟨b, hb, hbm, hbk⟩ := hg2
    rw [hmemVp] at hbk
    rcases Finset.mem_union.mp hbk.2 with hbP | hbpk
    · rw [mem_assocPredsSet] at hbP
      obtain ⟨c, hc, hcid, g', hcm, hgF⟩ := hbP
      have hcb : c = b := invariants_id_inj preds hp c hc b hb hcid
      subst hcb
      rw [hcm] at hbm
      cases hbm
      exact hgF
    · rw [Finset.mem_union, mem_assocGtsSet]
      exact Or.inr ⟨b, hb, hbm, hbpk⟩
  -- agreement of the two ground-truth keep sets on actual ground-truth ids
  have hFiff : ∀ g ∈ gts.annotations.map Ann._id,
      (g ∈ (keptIds gts (gts_keep ∪ assocGtsSet preds.annotations preds_keep)).toFinset
          ∪ assocGtsSet preds.annotations
            (keptIds preds (assocPredsSet preds.annotations
              (gts_keep ∪ assocGtsSet preds.annotations preds_keep)
                ∪ preds_keep)).toFinset) ↔
        g ∈ gts_keep ∪ assocGtsSet preds.annotations preds_keep := by
    intro g hgid
    obtain ⟨b, hb, hbid⟩ := List.mem_map.mp hgid
    constructor
    · intro hmem
      rcases Finset.mem_union.mp hmem with hVg | hA
      · exact ((hmemVg g).mp hVg).2
      · exact hA2 g hA
    · intro hmem
      rw [Finset.mem_union]
      exact Or.inl ((hmemVg g).mpr ⟨⟨b, hb, hbid⟩, hmem⟩)
  have hGts := filter_mem_congr gts
    ((keptIds gts (gts_keep ∪ assocGtsSet preds.annotations preds_keep)).toFinset
      ∪ assocGtsSet preds.annotations
        (keptIds preds (assocPredsSet preds.annotations
          (gts_keep ∪ assocGtsSet preds.annotations preds_keep)
            ∪ preds_keep)).toFinset)
    (gts_keep ∪ assocGtsSet preds.annotations preds_keep)
    (fun b hb => hFiff b._id (List.mem_map_of_mem Ann._id hb)) "filtered_data"
  -- agreement of the two prediction keep sets on actual prediction ids
  have hPiff : ∀ c ∈ preds.annotations,
      (c._id ∈ assocPredsSet preds.annotations
          ((keptIds gts (gts_keep ∪ assocGtsSet preds.annotations preds_keep)).toFinset
            ∪ assocGtsSet preds.annotations
              (keptIds preds (assocPredsSet preds.annotations
                (gts_keep ∪ assocGtsSet preds.annotations preds_keep)
                  ∪ preds_keep)).toFinset)
          ∪ (keptIds preds (assocPredsSet preds.annotations
              (gts_keep ∪ assocGtsSet preds.annotations preds_keep)
                ∪ preds_keep)).toFinset) ↔
        c._id ∈ assocPredsSet preds.annotations
            (gts_keep ∪ assocGtsSet preds.annotations preds_keep) ∪ preds_keep := by
    intro c hc
    constructor
    · intro hmem
      rcases Finset.mem_union.mp hmem with hAp | hVp
      · rw [mem_assocPredsSet] at hAp
        obtain ⟨b, hb, hbid, g, hbm, hgF2⟩ := hAp
        have hgid : g ∈ gts.annotations.map Ann._id := hvalid b hb g hbm
        have hgF : g ∈ gts_keep ∪ assocGtsSet preds.annotations preds_keep :=
          (hFiff g hgid).mp hgF2
        rw [Finset.mem_union, mem_assocPredsSet]
        exact Or.inl ⟨b, hb, hbid, g, hbm, hgF⟩
      · exact ((hmemVp c._id).mp hVp).2
    · intro hmem
      rw [Finset.mem_union]
      exact Or.inr ((hmemVp c._id).mpr ⟨⟨c, hc, rfl⟩, hmem⟩)
  have hPreds := filter_mem_congr preds _ _ hPiff "filtered_data"
  rw [hGts, hPreds]

/-- Witness for C2 at the concrete datasets `exGts`, `exPreds` with both
keep sets `{0}`. -/
theorem enlarger_fixpoint_witness :
    exGts.invariants ∧ exPreds.invariants ∧ infoTotal exPreds ∧
    matchedValid exGts exPreds ∧
    enlarge_dataset_to_respect_TIDE exGts exPreds {0} {0} =
      .ok ((create_filtered_Data exGts {0} "filtered_data").1,
           (create_filtered_Data exPreds {0} "filtered_data").1,
           [(0, 0)], [(0, 0)]) ∧
    enlarge_dataset_to_respect_TIDE exGts exPreds
        ([((0 : Nat), (0 : Nat))].map Prod.snd).toFinset
        ([((0 : Nat), (0 : Nat))].map Prod.snd).toFinset =
      .ok ((create_filtered_Data exGts {0} "filtered_data").1,
           (create_filtered_Data exPreds {0} "filtered_data").1,
           [(0, 0)], [(0, 0)]) :=
  ⟨by decide, by decide, by decide, by decide, by decide,
   enlarger_fixpoint exGts exPreds {0} {0} (by decide) (by decide) (by decide)
     (by decide) _ _ _ _ (by decide)⟩

/-- C8 counterexample: filtering a dataset whose single annotation holds an
`info` object; the output annotation is a fresh top-level record, but its
`info` reference is the very object referenced by the input annotation, so
the output does share mutable state with the input. -/
theorem subset_filter_shares_nested_state :
    sharesMutableState (create_filtered_Data_heap exObjHeap [0] {0}).1 [0]
      (create_filtered_Data_heap exObjHeap [0] {0}).2.1 := by
  decide

/-! ### Lemmas: the record importer -/

theorem mutateTaggedE_ok (p : RecDict → Bool)
    (fE : RecDict → Nat → Except String RecDict) (f : RecDict → Nat → RecDict)
    (l : List RecDict)
    (hconv : ∀ r ∈ l, p r = true → ∀ i, fE r i = .ok (f r i)) :
    ∀ n, mutateTaggedE p fE l n = .ok (mutateTagged p f l n) := by
  induction l with
  | nil => intro n; rfl
  | cons r rs ih =>
      intro n
      have hrest := ih (fun b hb => hconv b (List.mem_cons_of_mem r hb))
      by_cases hp : p r = true
      · simp [mutateTaggedE, mutateTagged, hp,
          hconv r (List.mem_cons_self r rs) hp n, hrest (n + 1)]
      · simp [mutateTaggedE, mutateTagged, hp, hrest n]

theorem mutateTagged_filter_self (p : RecDict → Bool) (f : RecDict → Nat → RecDict)
    (hf : ∀ r i, p (f r i) = p r) (l : List RecDict) :
    ∀ n, (mutateTagged p f l n).filter p = applyEnum f (l.filter p) n := by
  induction l with
  | nil => intro n; rfl
  | cons r rs ih =>
      intro n
      by_cases hp : p r = true
      · simp [mutateTagged, List.filter_cons, hp, hf, applyEnum, ih]
      · simp [mutateTagged, List.filter_cons, hp, ih]

theorem mutateTagged_filter_other (p q : RecDict → Bool) (f : RecDict → Nat → RecDict)
    (hfq : ∀ r i, q (f r i) = q r) (l : List RecDict)
    (hd : ∀ r ∈ l, q r = true → p r = false) :
    ∀ n, (mutateTagged p f l n).filter q = l.filter q := by
  induction l with
  | nil => intro n; rfl
  | cons r rs ih =>
      intro n
      have hrest := ih (fun b hb => hd b (List.mem_cons_of_mem r hb))
      by_cases hp : p r = true
      · have hq : q r = false := by
          by_cases hq' : q r = true
          · have := hd r (List.mem_cons_self r rs) hq'
            rw [this] at hp
            exact Bool.noConfusion hp
          · simpa using hq'
        simp [mutateTagged, hp, List.filter_cons, hfq, hq, hrest]
      · simp [mutateTagged, hp, List.filter_cons, hrest]

theorem mutateTagged_forall (p : RecDict → Bool) (f : RecDict → Nat → RecDict)
    (Q : RecDict → Prop) (hf : ∀ r i, Q r → Q (f r i)) (l : List RecDict)
    (hQ : ∀ r ∈ l, Q r) : ∀ n, ∀ r' ∈ mutateTagged p f l n, Q r' := by
  induction l with
  | nil => intro n r' hr'; cases hr'
  | cons r rs ih =>
      intro n r' hr'
      have hrest := ih (fun b hb => hQ b (List.mem_cons_of_mem r hb))
      simp only [mutateTagged] at hr'
      by_cases hp : p r = true
      · rw [if_pos hp] at hr'
        rcases List.mem_cons.mp hr' with rfl | hmem
        · exact hf r n (hQ r (List.mem_cons_self r rs))
        · exact hrest (n + 1) r' hmem
      · rw [if_neg hp] at hr'
        rcases List.mem_cons.mp hr' with rfl | hmem
        · exact hQ r' (List.mem_cons_self r' rs)
        · exact hrest n r' hmem

theorem applyEnum_length (f : RecDict → Nat → RecDict) (l : List RecDict) :
    ∀ n, (applyEnum f l n).length = l.length := by
  induction l with
  | nil => intro n; rfl
  | cons r rs ih => intro n; simp [applyEnum, ih]

theorem applyEnum_map_id (f : RecDict → Nat → RecDict)
    (hfid : ∀ r i, (f r i)._id = some i) (l : List RecDict) :
    ∀ n, (applyEnum f l n).map RecDict._id = (List.range' n l.length).map some := by
  induction l with
  | nil => intro n; rfl
  | cons r rs ih => intro n; simp [applyEnum, List.range', hfid, ih]

theorem applyEnum_map {β : Type} (f : RecDict → Nat → RecDict) (g : RecDict → β)
    (g' : RecDict → β) (hg : ∀ r i, g (f r i) = g' r) (l : List RecDict) :
    ∀ n, (applyEnum f l n).map g = l.map g' := by
  induction l with
  | nil => intro n; rfl
  | cons r rs ih => intro n; simp [applyEnum, hg, ih]

theorem imagePairs_fst (l : List RecDict) :
    ∀ n, (imagePairs l n).map Prod.fst = l.map RecDict.image_id := by
  induction l with
  | nil => intro n; rfl
  | cons r rs ih => intro n; simp [imagePairs, ih]

theorem imagePairs_filter_applyEnum (f : RecDict → Nat → RecDict)
    (hfid : ∀ r i, (f r i)._id = some i)
    (hfimg : ∀ r i, (f r i).image_id = r.image_id) (k : String) (l : List RecDict) :
    ∀ n, ((imagePairs (applyEnum f l n) n).filter (fun p => p.1 = k)).map Prod.snd =
      ((applyEnum f l n).filter (fun r => r.image_id = k)).filterMap RecDict._id := by
  induction l with
  | nil => intro n; rfl
  | cons r rs ih =>
      intro n
      by_cases h : r.image_id = k
      · simp [applyEnum, imagePairs, List.filter_cons, hfimg, h, hfid, ih]
      · simp [applyEnum, imagePairs, List.filter_cons, hfimg, h, ih]

theorem invariantsR_canonical (nm : String) (f : RecDict → Nat → RecDict)
    (hfid : ∀ r i, (f r i)._id = some i)
    (hfimg : ∀ r i, (f r i).image_id = r.image_id) (l : List RecDict) :
    invariantsR
      { name := nm
        annotations := applyEnum f l 0
        classes := canonicalClasses ((applyEnum f l 0).filterMap (fun r => r.«class»))
        images := canonicalImages (imagePairs (applyEnum f l 0) 0) } := by
  unfold invariantsR
  simp only
  refine ⟨?_, ?_, ?_, ?_, ?_, ?_⟩
  · rw [applyEnum_map_id f hfid l 0, applyEnum_length, List.range_eq_range']
  · rw [canonicalImages_keys]
    exact groupPairs_keys_nodup _
  · rw [canonicalImages_keys]
    ext k
    simp only [List.mem_toFinset]
    rw [groupPairs_mem_keys, imagePairs_fst]
  · intro q hq
    simp only [canonicalImages, List.mem_map] at hq
    obtain ⟨pq, hp, rfl⟩ := hq
    have hent := groupPairs_entries _ pq hp
    simpa [imagePairs_filter_applyEnum f hfid hfimg] using hent
  · exact canonicalClasses_keys_nodup _
  · rw [canonicalClasses_keys_toFinset]

theorem json_to_Data_ok (data : List RecDict)
    (hfields : ∀ r ∈ data, (r.is_gold = true → r.gold ≠ none) ∧
      (r.is_pred = true → r.pred ≠ none ∧ r.confidence ≠ none)) :
    json_to_Data data = .ok (gtsOut data, predsOut data) := by
  have hs1 : mutateTaggedE (fun r => r.is_gold) gtUpdate data 0 = .ok (store1P data) := by
    apply mutateTaggedE_ok
    intro r hr hp i
    obtain ⟨h1, _⟩ := hfields r hr
    cases hg : r.gold with
    | none => exact absurd hg (h1 hp)
    | some g => simp [gtUpdate, hg]
  have hQ2 : ∀ r' ∈ store1P data,
      r'.is_pred = true → r'.pred ≠ none ∧ r'.confidence ≠ none :=
    mutateTagged_forall (fun r => r.is_gold) gtUpdateP
      (fun r => r.is_pred = true → r.pred ≠ none ∧ r.confidence ≠ none)
      (fun r i h => h) data (fun r hr => (hfields r hr).2) 0
  have hs2 : mutateTaggedE (fun r => r.is_pred) predUpdate (store1P data) 0 =
      .ok (store2P data) := by
    apply mutateTaggedE_ok
    intro r hr hp i
    obtain ⟨hpred, hconf⟩ := hQ2 r hr hp
    cases hg : r.pred with
    | none => exact absurd hg hpred
    | some g =>
        cases hc : r.confidence with
        | none => exact absurd hc hconf
        | some c => simp [predUpdate, hg, hc]
  simp only [json_to_Data, hs1, hs2]
  rfl

theorem store1_filter_gold (data : List RecDict) :
    (store1P data).filter (fun r => r.is_gold) =
      applyEnum gtUpdateP (data.filter (fun r => r.is_gold)) 0 :=
  mutateTagged_filter_self (fun r => r.is_gold) gtUpdateP (fun r i => rfl) data 0

theorem gts_annotations_eq (data : List RecDict)
    (hdisj : ∀ r ∈ data, r.is_gold = true → r.is_pred = false) :
    (store2P data).filter (fun r => r.is_gold) =
      applyEnum gtUpdateP (data.filter (fun r => r.is_gold)) 0 := by
  have hgold_store1 : ∀ r' ∈ store1P data, r'.is_gold = true → r'.is_pred = false :=
    mutateTagged_forall (fun r => r.is_gold) gtUpdateP
      (fun r => r.is_gold = true → r.is_pred = false)
      (fun r i h => h) data hdisj 0
  have h21 : (store2P data).filter (fun r => r.is_gold) =
      (store1P data).filter (fun r => r.is_gold) :=
    mutateTagged_filter_other (fun r => r.is_pred) (fun r => r.is_gold) predUpdateP
      (fun r i => rfl) (store1P data) hgold_store1 0
  rw [h21, store1_filter_gold]

theorem store1_filter_pred (data : List RecDict)
    (hdisj : ∀ r ∈ data, r.is_gold = true → r.is_pred = false) :
    (store1P data).filter (fun r => r.is_pred) = data.filter (fun r => r.is_pred) := by
  apply mutateTagged_filter_other (fun r => r.is_gold) (fun r => r.is_pred) gtUpdateP
    (fun r i => rfl) data
  intro r hr hp
  by_cases hg : r.is_gold = true
  · rw [hdisj r hr hg] at hp
    exact Bool.noConfusion hp
  · simpa using hg

theorem preds_annotations_eq (data : List RecDict)
    (hdisj : ∀ r ∈ data, r.is_gold = true → r.is_pred = false) :
    (store2P data).filter (fun r => r.is_pred) =
      applyEnum predUpdateP (data.filter (fun r => r.is_pred)) 0 := by
  have h2 := mutateTagged_filter_self (fun r => r.is_pred) predUpdateP
    (fun r i => rfl) (store1P data) 0
  calc (store2P data).filter (fun r => r.is_pred)
      = applyEnum predUpdateP ((store1P data).filter (fun r => r.is_pred)) 0 := h2
    _ = applyEnum predUpdateP (data.filter (fun r => r.is_pred)) 0 := by
        rw [store1_filter_pred data hdisj]

/-- C4 (amended) — Importer invariant establishment under disjoint tags:
for records each carrying the fields its tags require, and no record
carrying both tags, the importer succeeds and both returned datasets
satisfy the §3 invariants, with the ground-truth `class` values being the
records' `gold` labels and the prediction `class`/`score` values the
records' `pred`/`confidence`.  (With a both-tagged record the two outputs
alias the same mutated dictionary and the invariants can fail — see the
counterexample.) -/
theorem json_to_Data_partition_invariants (data : List RecDict)
    (hdisj : ∀ r ∈ data, r.is_gold = true → r.is_pred = false)
    (hfields : ∀ r ∈ data, (r.is_gold = true → r.gold ≠ none) ∧
      (r.is_pred = true → r.pred ≠ none ∧ r.confidence ≠ none)) :
    ∃ gts preds, json_to_Data data = .ok (gts, preds) ∧
      invariantsR gts ∧ invariantsR preds ∧
      gts.annotations.map (fun r => r.«class») =
        (data.filter (fun r => r.is_gold)).map RecDict.gold ∧
      preds.annotations.map (fun r => r.«class») =
        (data.filter (fun r => r.is_pred)).map RecDict.pred ∧
      preds.annotations.map RecDict.score =
        (data.filter (fun r => r.is_pred)).map RecDict.confidence := by
  refine ⟨gtsOut data, predsOut data, json_to_Data_ok data hfields, ?_, ?_, ?_, ?_, ?_⟩
  · have hform : gtsOut data =
        { name := "test_gt"
          annotations := applyEnum gtUpdateP (data.filter (fun r => r.is_gold)) 0
          classes := canonicalClasses
            ((applyEnum gtUpdateP (data.filter (fun r => r.is_gold)) 0).filterMap
              (fun r => r.«class»))
          images := canonicalImages
            (imagePairs (applyEnum gtUpdateP (data.filter (fun r => r.is_gold)) 0) 0) } := by
      unfold gtsOut
      rw [gts_annotations_eq data hdisj, store1_filter_gold]
    rw [hform]
    exact invariantsR_canonical _ gtUpdateP (fun r i => rfl) (fun r i => rfl) _
  · have hform : predsOut data =
        { name := "test_pred"
          annotations := applyEnum predUpdateP (data.filter (fun r => r.is_pred)) 0
          classes := canonicalClasses
            ((applyEnum predUpdateP (data.filter (fun r => r.is_pred)) 0).filterMap
              (fun r => r.«class»))
          images := canonicalImages
            (imagePairs (applyEnum predUpdateP (data.filter (fun r => r.is_pred)) 0) 0) } := by
      unfold predsOut
      rw [preds_annotations_eq data hdisj]
    rw [hform]
    exact invariantsR_canonical _ predUpdateP (fun r i => rfl) (fun r i => rfl) _
  · show ((store2P data).filter (fun r => r.is_gold)).map (fun r => r.«class») = _
    rw [gts_annotations_eq data hdisj]
    exact applyEnum_map gtUpdateP _ RecDict.gold (fun r i => rfl) _ 0
  · show ((store2P data).filter (fun r => r.is_pred)).map (fun r => r.«class») = _
    rw [preds_annotations_eq data hdisj]
    exact applyEnum_map predUpdateP _ RecDict.pred (fun r i => rfl) _ 0
  · show ((store2P data).filter (fun r => r.is_pred)).map RecDict.score = _
    rw [preds_annotations_eq data hdisj]
    exact applyEnum_map predUpdateP _ RecDict.confidence (fun r i => rfl) _ 0

/-- Witness for C4 (amended) at the two-record scenario input. -/
theorem json_to_Data_partition_invariants_witness :
    (∀ r ∈ [exRecord1, exRecord2], r.is_gold = true → r.is_pred = false) ∧
    (∀ r ∈ [exRecord1, exRecord2], (r.is_gold = true → r.gold ≠ none) ∧
      (r.is_pred = true → r.pred ≠ none ∧ r.confidence ≠ none)) ∧
    (∃ gts preds, json_to_Data [exRecord1, exRecord2] = .ok (gts, preds) ∧
      invariantsR gts ∧ invariantsR preds ∧
      gts.annotations.map (fun r => r.«class») =
        ([exRecord1, exRecord2].filter (fun r => r.is_gold)).map RecDict.gold ∧
      preds.annotations.map (fun r => r.«class») =
        ([exRecord1, exRecord2].filter (fun r => r.is_pred)).map RecDict.pred ∧
      preds.annotations.map RecDict.score =
        ([exRecord1, exRecord2].filter (fun r => r.is_pred)).map RecDict.confidence) :=
  ⟨by decide, by decide,
   json_to_Data_partition_invariants [exRecord1, exRecord2] (by decide) (by decide)⟩

/-- C4 counterexample: on a gold-only record followed by a record tagged
both gold and pred, the prediction pass rewrites the shared dictionary of
the both-tagged record after the ground-truth dataset was assembled, so
the ground-truth `_id`s come out as `[0, 0]` — not the dense `[0, 1]` the
claim requires — and the ground-truth dataset violates the §3 invariants
(its second annotation also now carries the `pred` class 7, not its `gold`
class 5). -/
theorem json_to_Data_both_tags_counterexample :
    (json_to_Data [exGoldOnly, exBothTags]).map (fun out =>
        out.1.annotations.map RecDict._id) = .ok [some 0, some 0] ∧
    ¬([some 0, some 0] = (List.range 2).map some) ∧
    (json_to_Data [exGoldOnly, exBothTags]).map (fun out =>
        out.1.annotations.map (fun r => r.«class»)) = .ok [some 5, some 7] ∧
    (json_to_Data [exGoldOnly, exBothTags]).map (fun out =>
        decide (invariantsR out.1)) = .ok false :=
  ⟨by decide, by decide, by decide, by decide⟩

/-- C9 — Importer two-record scenario: on the spec §8 two-record input the
ground-truth dataset has exactly one annotation, with `_id = 0` and
`class = 5`, and the prediction dataset exactly one annotation, with
`_id = 0`, `class = 5` and `score = 0.9` (`mkRat 9 10`). -/
theorem importer_two_record_scenario :
    (json_to_Data [exRecord1, exRecord2]).map (fun out =>
        out.1.annotations.map (fun r => (r._id, r.«class»))) =
      .ok [(some 0, some 5)] ∧
    (json_to_Data [exRecord1, exRecord2]).map (fun out =>
        out.2.annotations.map (fun r => (r._id, r.«class», r.score))) =
      .ok [(some 0, some 5, some (mkRat 9 10))] :=
  ⟨by decide, by decide⟩

end Tide
